import Mathlib

/-!
A shallow embedding of the iomux I/O multiplexer (src/iomux.c, select
backend: no HAVE_EPOLL / HAVE_KQUEUE), together with theorems checking the
specification's claims against it.  File descriptors are natural numbers;
the machine `int` counter that can overflow (`last_timeout_id`) is modelled
as a 32-bit two's-complement wrapping integer; out-of-bounds array accesses
and null-pointer dereferences yield `none` (undefined behaviour); the
kernel environment (wall clock, read/write results, select results,
accepted connections) is an explicit oracle carried in the state.  User
callbacks are modelled as sequences of re-entrant public-API commands,
which is the contract the library documents for them.
-/

namespace Iomux

/-- Model of `struct timeval`. -/
structure TimeVal where
  sec : Int
  usec : Int
deriving DecidableEq

/-- Model of the BSD `timersub` macro: componentwise subtraction with borrow. -/
def timerSub (a b : TimeVal) : TimeVal :=
  let s := a.sec - b.sec
  let u := a.usec - b.usec
  if u < 0 then { sec := s - 1, usec := u + 1000000 } else { sec := s, usec := u }

/-- Model of `timercmp(a, b, <=)`. -/
def tvLE (a b : TimeVal) : Bool :=
  if a.sec = b.sec then a.usec ≤ b.usec else a.sec ≤ b.sec

/-- Model of `timercmp(a, b, >)`. -/
def tvGT (a b : TimeVal) : Bool :=
  if a.sec = b.sec then a.usec > b.usec else a.sec > b.sec

/-- Re-entrant public-API calls a user callback may issue (the library's
re-entrancy contract).  A callback body is a `List Cmd`. -/
inductive Cmd where
  | cClose (fd : Nat)
  | cRemove (fd : Nat)
  | cWrite (fd : Nat) (data : List Nat)
  | cSchedule (sec usec : Int)
  | cUnschedule (id : Int)
  | cEndLoop
deriving DecidableEq

/-- Model of `iomux_callbacks_t`: each callback is either absent (NULL) or a
command list; the opaque `priv` pointer is dropped. -/
structure Callbacks where
  mux_input : Option (List Cmd)
  mux_output : Option (List Cmd)
  mux_timeout : Option (List Cmd)
  mux_eof : Option (List Cmd)
  mux_connection : Option (List Cmd)
deriving DecidableEq

/-- Model of `iomux_connection_t` (select backend: no kqueue filter state).
`outbuf` is the pending output bytes, so `outlen` is `outbuf.length`. -/
structure Conn where
  flags : Nat
  cbs : Callbacks
  outbuf : List Nat
  eof : Int
  timeout_id : Int
deriving DecidableEq

/-- Model of `iomux_timeout_t` (select backend: no timerfd / kevent state). -/
structure Timeout where
  id : Int
  wait_time : TimeVal
  cb : List Cmd
deriving DecidableEq

/-- Observable callback invocations, recorded in order.  `evEof` records
whether the fd still had a registered connection at the moment the
`mux_eof` callback was invoked. -/
inductive Event where
  | evInput (fd : Nat) (len : Nat)
  | evOutput (fd : Nat)
  | evTimer (id : Int)
  | evEof (fd : Nat) (registered : Bool)
  | evConn (fd : Nat) (newfd : Nat)
deriving DecidableEq

/-- Outcome of a kernel `read`: `rok []` is a 0-byte read (EOF), `rok data`
with data nonempty is a successful read, `rerr true` is EINTR/EAGAIN and
`rerr false` any other errno. -/
inductive ReadOutcome where
  | rok (data : List Nat)
  | rerr (retryable : Bool)
deriving DecidableEq

/-- Outcome of a kernel `write`: `wok n` is a successful write of `n` bytes,
`werr true` is EINTR/EAGAIN and `werr false` any other errno. -/
inductive WriteOutcome where
  | wok (n : Nat)
  | werr (retryable : Bool)
deriving DecidableEq

/-- Outcome of `select`: an error (retryable = EINTR/EAGAIN) or the sets of
descriptors the kernel reports readable / writable. -/
inductive SelectOutcome where
  | serr (retryable : Bool)
  | ready (r w : List Nat)
deriving DecidableEq

/-- The kernel environment: streams of results consumed by successive
system calls. -/
structure Env where
  clocks : List TimeVal
  reads : List ReadOutcome
  writes : List WriteOutcome
  selects : List SelectOutcome
  accepts : List (List Nat)
deriving DecidableEq

def Env.popClock (e : Env) : TimeVal × Env :=
  match e.clocks with
  | [] => (⟨0, 0⟩, e)
  | c :: rest => (c, { e with clocks := rest })

def Env.popRead (e : Env) : ReadOutcome × Env :=
  match e.reads with
  | [] => (.rerr true, e)
  | r :: rest => (r, { e with reads := rest })

def Env.popWrite (e : Env) : WriteOutcome × Env :=
  match e.writes with
  | [] => (.werr true, e)
  | w :: rest => (w, { e with writes := rest })

def Env.popSelect (e : Env) : SelectOutcome × Env :=
  match e.selects with
  | [] => (.ready [] [], e)
  | s :: rest => (s, { e with selects := rest })

def Env.popAccepts (e : Env) : List Nat × Env :=
  match e.accepts with
  | [] => ([], e)
  | a :: rest => (a, { e with accepts := rest })

/-- Model of `struct __iomux` plus the process-wide `iomux_hangup` flag, the
kernel environment and the observable event trace. -/
structure W where
  connections : List (Nat × Conn)
  maxfd : Int
  minfd : Nat
  leave : Int
  loop_end_cb : Option (List Cmd)
  hangup_cb : Option (List Cmd)
  error : String
  last_timeout_check : TimeVal
  timeouts : List Timeout
  last_timeout_id : Int
  hangup : Bool
  env : Env
  trace : List Event
deriving DecidableEq

/-- Lookup of `iomux->connections[fd]` in the association-list registry. -/
def lookupConn : List (Nat × Conn) → Nat → Option Conn
  | [], _ => none
  | (k, c) :: rest, fd => if k = fd then some c else lookupConn rest fd

/-- Store a connection record at slot `fd`. -/
def setConn : List (Nat × Conn) → Nat → Conn → List (Nat × Conn)
  | [], fd, c => [(fd, c)]
  | (k, c0) :: rest, fd, c =>
    if k = fd then (fd, c) :: rest else (k, c0) :: setConn rest fd c

/-- Clear slot `fd` (`free` + `connections[fd] = NULL`). -/
def eraseConn : List (Nat × Conn) → Nat → List (Nat × Conn)
  | [], _ => []
  | (k, c) :: rest, fd => if k = fd then rest else (k, c) :: eraseConn rest fd

/-- IOMUX_CONNECTIONS_MAX. -/
def connectionsMax : Nat := 65535

/-- IOMUX_CONNECTION_BUFSIZE. -/
def bufSize : Nat := 16384

/-- Read `iomux->connections[fd]`.  The array has `connectionsMax` slots, so
an index at or past that bound is an out-of-bounds access: undefined
(`none`).  A defined read yields `some` of the slot's contents. -/
def slotRead (st : W) (fd : Nat) : Option (Option Conn) :=
  if fd < connectionsMax then some (lookupConn st.connections fd) else none

/-- INT_MAX for the 32-bit `int last_timeout_id`. -/
def intMax : Int := 2147483647

/-- Model of `++iomux->last_timeout_id` on a 32-bit two's-complement `int`:
increment, wrapping INT_MAX to INT_MIN. -/
def incWrap (x : Int) : Int := if x = intMax then -2147483648 else x + 1

/-- Model of `iomux_create` (select backend): `calloc` zero-initialises every
field, so both cursors start at 0 and the registry, timer list and hooks are
empty.  The kernel environment is supplied by the caller. -/
def iomux_create (env : Env) : W :=
  { connections := []
    maxfd := 0
    minfd := 0
    leave := 0
    loop_end_cb := none
    hangup_cb := none
    error := ""
    last_timeout_check := ⟨0, 0⟩
    timeouts := []
    last_timeout_id := 0
    hangup := false
    env := env
    trace := [] }

/-- Remove the first timer whose id matches (the TAILQ_FOREACH_SAFE loop in
`iomux_unschedule`, which breaks after the first hit). -/
def removeFirstId (id : Int) : List Timeout → List Timeout
  | [] => []
  | t :: rest => if t.id = id then rest else t :: removeFirstId id rest

/-- Model of `iomux_unschedule` (select backend: no kernel disarm).  Returns
0 only for id 0; for any nonzero id it removes the first matching timer, if
one exists, and falls through to `return 1` either way. -/
def iomux_unschedule (st : W) (id : Int) : W × Int :=
  if id = 0 then (st, 0)
  else ({ st with timeouts := removeFirstId id st.timeouts }, 1)

/-- Sorted insertion from `iomux_schedule`: insert before the first entry
with strictly larger `wait_time`, else append at the tail. -/
def insertSorted (t : Timeout) : List Timeout → List Timeout
  | [] => [t]
  | t2 :: rest =>
    if (t.wait_time.sec = t2.wait_time.sec ∧ t.wait_time.usec < t2.wait_time.usec)
        ∨ t.wait_time.sec < t2.wait_time.sec then
      t :: t2 :: rest
    else
      t2 :: insertSorted t rest

/-- Model of `iomux_schedule` (select backend: no timerfd / kevent arming).
NULL `tv` or `cb` returns 0; otherwise `last_timeout_check` is initialised
from the clock if still zero, the id counter is incremented and the new
timer inserted at its sorted position. -/
def iomux_schedule (st : W) (tv : Option TimeVal) (cb : Option (List Cmd)) :
    W × Int :=
  match tv, cb with
  | some tv, some cb =>
    let st :=
      if st.last_timeout_check.sec = 0 then
        let p := st.env.popClock
        { st with last_timeout_check := p.1, env := p.2 }
      else st
    let newId := incWrap st.last_timeout_id
    let t : Timeout := { id := newId, wait_time := tv, cb := cb }
    ({ st with last_timeout_id := newId, timeouts := insertSorted t st.timeouts },
     newId)
  | _, _ => (st, 0)

/-- Fuel for the cursor walks; 70000 exceeds the 65535-slot registry, so a
walk can only exhaust it after first hitting one of its stop conditions or
the out-of-bounds case. -/
def walkFuel : Nat := 70000

/-- The `while (maxfd >= 0 && !connections[maxfd]) maxfd--` rewind in
`iomux_remove`.  Reading a slot at or past `connectionsMax` is undefined. -/
def advMax (conns : List (Nat × Conn)) : Nat → Int → Option Int
  | 0, _ => none
  | fuel + 1, m =>
    if m < 0 then some m
    else if m ≥ (connectionsMax : Int) then none
    else if (lookupConn conns m.toNat).isSome then some m
    else advMax conns fuel (m - 1)

/-- The `while (minfd != maxfd && !connections[minfd]) minfd++` advance in
`iomux_remove`: the cursor comparison is evaluated before the slot read, and
a slot read at or past `connectionsMax` is undefined. -/
def advMinRemove (conns : List (Nat × Conn)) (maxfd : Int) :
    Nat → Nat → Option Nat
  | 0, _ => none
  | fuel + 1, m =>
    if (m : Int) = maxfd then some m
    else if m ≥ connectionsMax then none
    else if (lookupConn conns m).isSome then some m
    else advMinRemove conns maxfd fuel (m + 1)

/-- The `while (!connections[minfd] && minfd != maxfd) minfd++` advance in
`iomux_add`: here the slot read is evaluated before the cursor comparison. -/
def advMinAdd (conns : List (Nat × Conn)) (maxfd : Int) :
    Nat → Nat → Option Nat
  | 0, _ => none
  | fuel + 1, m =>
    if m ≥ connectionsMax then none
    else if (lookupConn conns m).isSome then some m
    else if (m : Int) = maxfd then some m
    else advMinAdd conns maxfd fuel (m + 1)

/-- Model of `iomux_add` (select backend).  The `fd < 0` and NULL-callbacks
checks of the C code are unrepresentable here (`fd : Nat`, callbacks always
supplied), so only the remaining precondition checks appear.  Returns the
new state and the 1/0 result; `none` would signal undefined behaviour in the
cursor walk. -/
def iomux_add (st : W) (fd : Nat) (cbs : Callbacks) : Option (W × Bool) :=
  if fd ≥ connectionsMax then some ({ st with error := "exceeds max fd" }, false)
  else if (lookupConn st.connections fd).isSome then
    some ({ st with error := "already added" }, false)
  else
    let conn : Conn := { flags := 0, cbs := cbs, outbuf := [], eof := 0, timeout_id := 0 }
    let maxfd1 := if (fd : Int) > st.maxfd then (fd : Int) else st.maxfd
    let minfd1 := if fd < st.minfd then fd else st.minfd
    let conns := setConn st.connections fd conn
    match advMinAdd conns maxfd1 walkFuel minfd1 with
    | none => none
    | some minfd2 =>
      some ({ st with connections := conns, maxfd := maxfd1, minfd := minfd2 }, true)

/-- Model of `iomux_remove` (select backend: no epoll/kqueue detach).  The
very first statement dereferences `connections[fd]->timeout_id`, so an empty
slot is a null-pointer dereference: undefined (`none`).  Otherwise the
associated timeout is unscheduled, the record freed, and the cursors
rewound; the cursor walks can run out of bounds (also `none`). -/
def iomux_remove (st : W) (fd : Nat) : Option W :=
  match slotRead st fd with
  | none => none
  | some none => none
  | some (some conn) =>
    let st := (iomux_unschedule st conn.timeout_id).1
    let conns := eraseConn st.connections fd
    let st := { st with connections := conns }
    match (if st.maxfd = (fd : Int) then advMax conns walkFuel st.maxfd
           else some st.maxfd) with
    | none => none
    | some maxfd2 =>
      let st := { st with maxfd := maxfd2 }
      match (if st.minfd = fd then advMinRemove conns st.maxfd walkFuel st.minfd
             else some st.minfd) with
      | none => none
      | some minfd2 => some { st with minfd := minfd2 }

/-- Model of `iomux_write` (select backend: no epoll/kqueue write-interest
update).  Dereferences `connections[fd]->outlen` unguarded, so an empty slot
is undefined.  Accepts `min(len, bufSize - outlen)` bytes, appends them and
returns that count. -/
def iomux_write (st : W) (fd : Nat) (buf : List Nat) : Option (W × Int) :=
  match slotRead st fd with
  | none => none
  | some none => none
  | some (some conn) =>
    let len : Int := buf.length
    let free_space : Int := (bufSize : Int) - conn.outbuf.length
    let wlen : Int := if len > free_space then free_space else len
    if wlen ≠ 0 then
      let conn2 := { conn with outbuf := conn.outbuf ++ buf.take wlen.toNat }
      some ({ st with connections := setConn st.connections fd conn2 }, wlen)
    else some (st, wlen)

/-- The flush loop of `iomux_close`: `while (outlen && retries <= 5)` keeps
calling `write`; EINTR/EAGAIN counts one retry, any other error or a 0-byte
write breaks, and a successful write shortens the buffer (without counting
as a retry).  Callers pass fuel `outlen + 8`, which bounds the loop since
every step shortens the buffer, bumps `retries`, or stops. -/
def drainLoop : Nat → Nat → Conn → Env → Conn × Env
  | 0, _, conn, env => (conn, env)
  | fuel + 1, retries, conn, env =>
    if conn.outbuf.length ≠ 0 ∧ retries ≤ 5 then
      let p := env.popWrite
      match p.1 with
      | .wok 0 => (conn, p.2)
      | .wok n =>
        drainLoop fuel retries
          { conn with outbuf := conn.outbuf.drop (min n conn.outbuf.length) } p.2
      | .werr true => drainLoop fuel (retries + 1) conn p.2
      | .werr false => (conn, p.2)
    else (conn, env)

/-- Model of `iomux_close`.  An unregistered fd returns at once with nothing
changed.  Otherwise the output buffer is flushed by `drainLoop`, the
`mux_eof` pointer is saved, `iomux_remove` deregisters and frees the record,
and only then is the saved `mux_eof` invoked: the `evEof` trace event
records whether the fd was still registered at that moment, and the
callback's command list is handed back to the caller to run. -/
def iomux_close (st : W) (fd : Nat) : Option (W × List Cmd) :=
  match slotRead st fd with
  | none => none
  | some none => some (st, [])
  | some (some conn) =>
    let d := if conn.outbuf.length ≠ 0 then
        drainLoop (conn.outbuf.length + 8) 0 conn st.env
      else (conn, st.env)
    let st := { st with connections := setConn st.connections fd d.1, env := d.2 }
    let eofCb := d.1.cbs.mux_eof
    match iomux_remove st fd with
    | none => none
    | some st2 =>
      match eofCb with
      | some cmds =>
        some ({ st2 with
                 trace := st2.trace ++
                   [Event.evEof fd (lookupConn st2.connections fd).isSome] },
              cmds)
      | none => some (st2, [])

/-- Model of `iomux_update_timeouts` (select backend, so without the
epoll/kqueue-only purge of expired-but-unfired entries).  It reads the
clock, computes the elapsed time into `diff`, stores the new
`last_timeout_check` — and then `memset(&diff, 0, sizeof(diff))` zeroes
`diff` before it is subtracted from every timer, exactly as the C does. -/
def iomux_update_timeouts (st : W) : W :=
  let p := st.env.popClock
  let now := p.1
  let diff := if st.last_timeout_check.sec ≠ 0 then timerSub now st.last_timeout_check
    else (⟨0, 0⟩ : TimeVal)
  let st := { st with last_timeout_check := now, env := p.2 }
  let diff := (⟨0, 0⟩ : TimeVal)
  { st with
    timeouts := st.timeouts.map fun t => { t with wait_time := timerSub t.wait_time diff } }

/-- Model of `iomux_adjust_timeout`: the effective wait is the smaller of
the caller's default and the head timer's remaining wait; `none` (infinite)
only when both are absent. -/
def iomux_adjust_timeout (st : W) (tv_default : Option TimeVal) : Option TimeVal :=
  match st.timeouts.head?, tv_default with
  | some t, some tvd => if tvGT t.wait_time tvd then some tvd else some t.wait_time
  | some t, none => some t.wait_time
  | none, some tvd => some tvd
  | none, none => none

/-- Model of `iomux_end_loop`. -/
def iomux_end_loop (st : W) : W := { st with leave := 1 }

/-- The pending continuations of the dispatch machine.  The event-processing
loop of `iomux_run`, callback bodies and the timer sweep are decomposed into
tasks executed in order, so that a callback's re-entrant mutations are
visible to every later check — exactly the C control flow. -/
inductive Task where
  | tCmds (cs : List Cmd)
  | tProcFds (fd : Nat) (effR effW : List Nat)
  | tHandleFd (fd : Nat) (effR effW : List Nat)
  | tWritePhase (fd : Nat) (effW : List Nat)
  | tReadFd (fd : Nat)
  | tWriteOut (fd : Nat)
  | tWriteKernel (fd : Nat)
  | tAccept (fd : Nat) (pending : List Nat)
  | tFireExpired
  | tRunTimeouts
deriving DecidableEq

/-- One step of the dispatch machine: run one task, producing the new state
and the tasks it schedules (which execute before the rest of the queue).
`none` marks undefined behaviour. -/
def stepTask (st : W) (t : Task) : Option (W × List Task) :=
  match t with
  | .tCmds [] => some (st, [])
  | .tCmds (c :: rest) =>
    match c with
    | .cClose fd =>
      match iomux_close st fd with
      | none => none
      | some (st2, eofCmds) => some (st2, [.tCmds eofCmds, .tCmds rest])
    | .cRemove fd =>
      match iomux_remove st fd with
      | none => none
      | some st2 => some (st2, [.tCmds rest])
    | .cWrite fd data =>
      match iomux_write st fd data with
      | none => none
      | some (st2, _) => some (st2, [.tCmds rest])
    | .cSchedule s u =>
      some ((iomux_schedule st (some ⟨s, u⟩) (some [])).1, [.tCmds rest])
    | .cUnschedule id => some ((iomux_unschedule st id).1, [.tCmds rest])
    | .cEndLoop => some (iomux_end_loop st, [.tCmds rest])
  | .tProcFds fd effR effW =>
    -- the for loop re-reads iomux->maxfd at every iteration
    if (fd : Int) > st.maxfd then some (st, [])
    else some (st, [.tHandleFd fd effR effW, .tProcFds (fd + 1) effR effW])
  | .tHandleFd fd effR effW =>
    match slotRead st fd with
    | none => none
    | some none => some (st, [])      -- `if (iomux->connections[fd])` guard
    | some (some conn) =>
      if effR.contains fd then
        if conn.flags &&& 1 = 1 then  -- IOMUX_CONNECTION_SERVER
          let p := st.env.popAccepts
          some ({ st with env := p.2 }, [.tAccept fd p.1, .tWritePhase fd effW])
        else some (st, [.tReadFd fd, .tWritePhase fd effW])
      else some (st, [.tWritePhase fd effW])
  | .tWritePhase fd effW =>
    match slotRead st fd with
    | none => none
    | some none => some (st, [])      -- `if (!connections[fd]) continue;`
    | some (some _) =>
      if effW.contains fd then some (st, [.tWriteOut fd]) else some (st, [])
  | .tReadFd fd =>
    match slotRead st fd with
    | none => none
    | some none => none               -- iomux_read_fd dereferences unguarded
    | some (some conn) =>
      let p := st.env.popRead
      let st := { st with env := p.2 }
      match p.1 with
      | .rerr true => some (st, [])
      | .rerr false =>
        match iomux_close st fd with
        | none => none
        | some (st2, eofCmds) => some (st2, [.tCmds eofCmds])
      | .rok [] =>
        match iomux_close st fd with
        | none => none
        | some (st2, eofCmds) => some (st2, [.tCmds eofCmds])
      | .rok data =>
        match conn.cbs.mux_input with
        | some cmds =>
          some ({ st with trace := st.trace ++ [.evInput fd data.length] },
                [.tCmds cmds])
        | none => some (st, [])
  | .tWriteOut fd =>
    match slotRead st fd with
    | none => none
    | some none => none               -- iomux_write_fd dereferences unguarded
    | some (some conn) =>
      if conn.outbuf.length = 0 ∧ conn.cbs.mux_output.isSome then
        some ({ st with trace := st.trace ++ [.evOutput fd] },
              [.tCmds (conn.cbs.mux_output.getD []), .tWriteKernel fd])
      else some (st, [.tWriteKernel fd])
  | .tWriteKernel fd =>
    -- `if (!connections[fd] || !connections[fd]->outlen) return;`
    match slotRead st fd with
    | none => none
    | some none => some (st, [])
    | some (some conn) =>
      if conn.outbuf.length = 0 then some (st, [])
      else
        let p := st.env.popWrite
        let st := { st with env := p.2 }
        match p.1 with
        | .werr _ =>
          -- `if (errno != EINTR || errno != EAGAIN)` is always true
          match iomux_close st fd with
          | none => none
          | some (st2, eofCmds) => some (st2, [.tCmds eofCmds])
        | .wok 0 =>
          match iomux_close st fd with
          | none => none
          | some (st2, eofCmds) => some (st2, [.tCmds eofCmds])
        | .wok wb =>
          let wb2 := min wb conn.outbuf.length
          some ({ st with connections :=
                    setConn st.connections fd { conn with outbuf := conn.outbuf.drop wb2 } },
                [])
  | .tAccept fd pending =>
    match pending with
    | [] => some (st, [])
    | newfd :: rest =>
      match slotRead st fd with
      | none => none
      | some none => none             -- cbs captured once; gone record is UB
      | some (some conn) =>
        match conn.cbs.mux_connection with
        | some cmds =>
          some ({ st with trace := st.trace ++ [.evConn fd newfd] },
                [.tCmds cmds, .tAccept fd rest])
        | none => none                -- C calls cbs->mux_connection unguarded
  | .tFireExpired =>
    match st.timeouts with
    | [] => some (st, [])
    | t :: rest =>
      if tvLE t.wait_time ⟨0, 0⟩ then
        some ({ st with timeouts := rest, trace := st.trace ++ [.evTimer t.id] },
              [.tCmds t.cb, .tFireExpired])
      else some (st, [])
  | .tRunTimeouts => some (iomux_update_timeouts st, [.tFireExpired])

/-- Run the dispatch machine until the task queue empties, the fuel runs
out, or undefined behaviour is hit. -/
def exec : Nat → W → List Task → Option W
  | _, st, [] => some st
  | 0, _, _ :: _ => none
  | fuel + 1, st, t :: ts =>
    match stepTask st t with
    | none => none
    | some (st2, newTasks) => exec fuel st2 (newTasks ++ ts)

/-- Fuel for one `iomux_run` invocation. -/
def bigFuel : Nat := 1000000

/-- Descriptors scanned by the select backend: `minfd` up to the current
`maxfd`. -/
def fdRange (st : W) : List Nat :=
  if (st.minfd : Int) ≤ st.maxfd then
    (List.range ((st.maxfd + 1 - st.minfd).toNat)).map (st.minfd + ·)
  else []

/-- The read bitset built by `iomux_run`: every live fd (to observe EOF
even without an input callback). -/
def buildRin (st : W) : List Nat :=
  (fdRange st).filter fun fd => (lookupConn st.connections fd).isSome

/-- The write bitset built by `iomux_run`: live fds with pending output or
an `mux_output` callback. -/
def buildRout (st : W) : List Nat :=
  (fdRange st).filter fun fd =>
    match lookupConn st.connections fd with
    | some c => c.outbuf.length != 0 || c.cbs.mux_output.isSome
    | none => false

/-- Model of the select-backend `iomux_run`: build the bitsets, merge the
wait with the earliest timer, block in `select`, then dispatch.  An
EINTR/EAGAIN select error returns at once (skipping the timer sweep); any
other error records it and falls through to the sweep; otherwise each ready
descriptor is processed in ascending order and the sweep follows. -/
def iomux_run (st : W) (tv_default : Option TimeVal) : Option W :=
  let rin := buildRin st
  let rout := buildRout st
  let _tv := iomux_adjust_timeout st tv_default
  let p := st.env.popSelect
  let st := { st with env := p.2 }
  match p.1 with
  | .serr true => some st
  | .serr false => exec bigFuel { st with error := "select error" } [.tRunTimeouts]
  | .ready r w =>
    let effR := rin.filter (r.contains ·)
    let effW := rout.filter (w.contains ·)
    if effR.isEmpty && effW.isEmpty then exec bigFuel st [.tRunTimeouts]
    else exec bigFuel st [.tProcFds st.minfd effR effW, .tRunTimeouts]

/-- One body of the `while (!iomux->leave)` loop in `iomux_loop`: a run with
the caller's whole-seconds default, then the `loop_end` hook, then — when the
process-wide hangup flag is raised and a hook is installed — the hangup
hook. -/
def loopIteration (st : W) (timeout : Int) : Option W :=
  match iomux_run st (some ⟨timeout, 0⟩) with
  | none => none
  | some st1 =>
    let r2 := match st1.loop_end_cb with
      | some cmds => exec bigFuel st1 [.tCmds cmds]
      | none => some st1
    match r2 with
    | none => none
    | some st2 =>
      if st2.hangup ∧ st2.hangup_cb.isSome then
        exec bigFuel st2 [.tCmds (st2.hangup_cb.getD [])]
      else some st2

/-- Model of `iomux_loop`: iterate until the `leave` flag is set, then clear
it before returning.  `fuel` bounds the number of iterations; exhausting it
models a loop that has not yet terminated (`none`). -/
def iomux_loop (timeout : Int) : Nat → W → Option W
  | 0, st => if st.leave ≠ 0 then some { st with leave := 0 } else none
  | fuel + 1, st =>
    if st.leave ≠ 0 then some { st with leave := 0 }
    else
      match loopIteration st timeout with
      | none => none
      | some st2 => iomux_loop timeout fuel st2

/-! Helper lemmas about the registry, the cursor walks and the state-passing
of the operations. -/

theorem lookup_setConn (l : List (Nat × Conn)) (fd : Nat) (c : Conn) (g : Nat) :
    lookupConn (setConn l fd c) g = if g = fd then some c else lookupConn l g := by
  induction l with
  | nil =>
    simp only [setConn, lookupConn]
    split_ifs <;> first | rfl | omega
  | cons p rest ih =>
    obtain ⟨k, c0⟩ := p
    by_cases hk : k = fd
    · subst hk
      simp only [setConn, if_pos rfl, lookupConn]
      split_ifs <;> first | rfl | omega
    · simp only [setConn, if_neg hk, lookupConn, ih]
      split_ifs <;> first | rfl | omega

theorem lookup_eraseConn_ne (l : List (Nat × Conn)) (fd g : Nat) (h : g ≠ fd) :
    lookupConn (eraseConn l fd) g = lookupConn l g := by
  induction l with
  | nil => simp [eraseConn]
  | cons p rest ih =>
    obtain ⟨k, c0⟩ := p
    by_cases hk : k = fd
    · subst hk
      simp [eraseConn, lookupConn, Ne.symm h]
    · simp only [eraseConn, if_neg hk, lookupConn, ih]

theorem lookup_not_mem (l : List (Nat × Conn)) (fd : Nat)
    (h : fd ∉ l.map Prod.fst) : lookupConn l fd = none := by
  induction l with
  | nil => simp [lookupConn]
  | cons p rest ih =>
    obtain ⟨k, c0⟩ := p
    have h1 : k ≠ fd := fun he => h (by simp [he])
    have h2 : fd ∉ rest.map Prod.fst := fun hm => h (by simp [hm])
    simp [lookupConn, h1, ih h2]

theorem lookup_eraseConn_self (l : List (Nat × Conn)) (fd : Nat)
    (hnd : (l.map Prod.fst).Nodup) : lookupConn (eraseConn l fd) fd = none := by
  induction l with
  | nil => simp [eraseConn, lookupConn]
  | cons p rest ih =>
    obtain ⟨k, c0⟩ := p
    rcases List.nodup_cons.mp hnd with ⟨hk1, hk2⟩
    by_cases hk : k = fd
    · subst hk
      simp only [eraseConn, if_pos rfl]
      exact lookup_not_mem rest k hk1
    · simp only [eraseConn, if_neg hk, lookupConn, if_neg hk, ih hk2]

theorem keys_setConn (l : List (Nat × Conn)) (fd : Nat) (c : Conn) :
    (setConn l fd c).map Prod.fst =
      if fd ∈ l.map Prod.fst then l.map Prod.fst else l.map Prod.fst ++ [fd] := by
  induction l with
  | nil => simp [setConn]
  | cons p rest ih =>
    obtain ⟨k, c0⟩ := p
    by_cases hk : k = fd
    · subst hk; simp [setConn]
    · have hfk : (fd = k) = False := eq_false fun he => hk he.symm
      by_cases hm : fd ∈ rest.map Prod.fst <;>
        simp [setConn, hk, ih, hm, hfk]

theorem nodup_keys_setConn (l : List (Nat × Conn)) (fd : Nat) (c : Conn)
    (hnd : (l.map Prod.fst).Nodup) :
    ((setConn l fd c).map Prod.fst).Nodup := by
  rw [keys_setConn]
  by_cases hm : fd ∈ l.map Prod.fst
  · simpa [hm] using hnd
  · rw [if_neg hm]
    exact List.Nodup.append hnd (List.nodup_singleton _)
      (fun a ha hb => by simp at hb; subst hb; exact hm ha)

theorem advMinAdd_some (conns : List (Nat × Conn)) (maxfd : Int) :
    ∀ fuel m m2, advMinAdd conns maxfd fuel m = some m2 →
      m ≤ m2 ∧ ∀ j, m ≤ j → j < m2 → lookupConn conns j = none := by
  intro fuel
  induction fuel with
  | zero => intro m m2 h; simp [advMinAdd] at h
  | succ f ih =>
    intro m m2 h
    simp only [advMinAdd] at h
    split_ifs at h with h1 h2 h3
    · cases h
      exact ⟨le_refl m, fun j hj1 hj2 => absurd hj2 (by omega)⟩
    · cases h
      exact ⟨le_refl m, fun j hj1 hj2 => absurd hj2 (by omega)⟩
    · obtain ⟨h4, h5⟩ := ih (m + 1) m2 h
      refine ⟨by omega, fun j hj1 hj2 => ?_⟩
      by_cases hj : j = m
      · subst hj
        cases ho : lookupConn conns j with
        | none => rfl
        | some c => rw [ho] at h2; simp at h2
      · exact h5 j (by omega) hj2

theorem advMinRemove_some (conns : List (Nat × Conn)) (maxfd : Int) :
    ∀ fuel m m2, advMinRemove conns maxfd fuel m = some m2 →
      m ≤ m2 ∧ ∀ j, m ≤ j → j < m2 → lookupConn conns j = none := by
  intro fuel
  induction fuel with
  | zero => intro m m2 h; simp [advMinRemove] at h
  | succ f ih =>
    intro m m2 h
    simp only [advMinRemove] at h
    split_ifs at h with h1 h2 h3
    · cases h
      exact ⟨le_refl m, fun j hj1 hj2 => absurd hj2 (by omega)⟩
    · cases h
      exact ⟨le_refl m, fun j hj1 hj2 => absurd hj2 (by omega)⟩
    · obtain ⟨h4, h5⟩ := ih (m + 1) m2 h
      refine ⟨by omega, fun j hj1 hj2 => ?_⟩
      by_cases hj : j = m
      · subst hj
        cases ho : lookupConn conns j with
        | none => rfl
        | some c => rw [ho] at h3; simp at h3
      · exact h5 j (by omega) hj2

theorem advMax_some (conns : List (Nat × Conn)) :
    ∀ fuel (m m2 : Int), advMax conns fuel m = some m2 →
      m2 ≤ m ∧ ∀ j : Int, m2 < j → j ≤ m → 0 ≤ j → lookupConn conns j.toNat = none := by
  intro fuel
  induction fuel with
  | zero => intro m m2 h; simp [advMax] at h
  | succ f ih =>
    intro m m2 h
    simp only [advMax] at h
    split_ifs at h with h1 h2 h3
    · cases h
      exact ⟨le_refl m, fun j hj1 hj2 _ => absurd hj2 (by omega)⟩
    · cases h
      exact ⟨le_refl m, fun j hj1 hj2 _ => absurd hj2 (by omega)⟩
    · obtain ⟨h4, h5⟩ := ih (m - 1) m2 h
      refine ⟨by omega, fun j hj1 hj2 hj3 => ?_⟩
      by_cases hj : j = m
      · subst hj
        cases ho : lookupConn conns j.toNat with
        | none => rfl
        | some c => rw [ho] at h3; simp at h3
      · exact h5 j hj1 (by omega) hj3

theorem drainLoop_cbs : ∀ fuel retries conn env,
    ((drainLoop fuel retries conn env).1).cbs = conn.cbs := by
  intro fuel
  induction fuel with
  | zero => intro r conn env; rfl
  | succ f ih =>
    intro r conn env
    simp only [drainLoop]
    split_ifs with h
    · rcases hw : (Env.popWrite env).1 with n | b
      · cases n with
        | zero => simp [hw]
        | succ n => simp [hw, ih]
      · cases b <;> simp [hw, ih]
    · rfl

theorem unschedule_fields (st : W) (id : Int) :
    (iomux_unschedule st id).1.connections = st.connections ∧
    (iomux_unschedule st id).1.trace = st.trace ∧
    (iomux_unschedule st id).1.env = st.env ∧
    (iomux_unschedule st id).1.maxfd = st.maxfd ∧
    (iomux_unschedule st id).1.minfd = st.minfd := by
  unfold iomux_unschedule
  split_ifs <;> simp

theorem iomux_remove_spec (st : W) (fd : Nat) (st2 : W)
    (h : iomux_remove st fd = some st2) :
    st2.connections = eraseConn st.connections fd ∧
    st2.trace = st.trace ∧ st2.env = st.env ∧
    ((st.maxfd = (fd : Int) ∧
        advMax (eraseConn st.connections fd) walkFuel st.maxfd = some st2.maxfd) ∨
      (st.maxfd ≠ (fd : Int) ∧ st2.maxfd = st.maxfd)) ∧
    ((st.minfd = fd ∧
        advMinRemove (eraseConn st.connections fd) st2.maxfd walkFuel st.minfd =
          some st2.minfd) ∨
      (st.minfd ≠ fd ∧ st2.minfd = st.minfd)) := by
  unfold iomux_remove at h
  rcases hs : slotRead st fd with _ | oc
  · rw [hs] at h; simp at h
  · rw [hs] at h
    rcases oc with _ | conn
    · simp at h
    · simp only at h
      obtain ⟨hu1, hu2, hu3, hu4, hu5⟩ := unschedule_fields st conn.timeout_id
      rw [hu1, hu4, hu5] at h
      by_cases hmx : st.maxfd = (fd : Int)
      · rw [if_pos hmx] at h
        cases ha : advMax (eraseConn st.connections fd) walkFuel st.maxfd with
        | none => rw [ha] at h; simp at h
        | some m2 =>
          rw [ha] at h
          simp only at h
          by_cases hmn : st.minfd = fd
          · rw [if_pos hmn] at h
            cases hb : advMinRemove (eraseConn st.connections fd) m2 walkFuel
                st.minfd with
            | none => rw [hb] at h; simp at h
            | some n2 =>
              rw [hb] at h
              simp only at h
              obtain rfl := Option.some.inj h
              refine ⟨by simp [hu1, hu2, hu3], by simp [hu2], by simp [hu3],
                Or.inl ⟨hmx, by simpa using ha⟩, Or.inl ⟨hmn, by simpa using hb⟩⟩
          · rw [if_neg hmn] at h
            simp only at h
            obtain rfl := Option.some.inj h
            refine ⟨by simp [hu1], by simp [hu2], by simp [hu3],
              Or.inl ⟨hmx, by simpa using ha⟩, Or.inr ⟨hmn, by simp⟩⟩
      · rw [if_neg hmx] at h
        simp only at h
        by_cases hmn : st.minfd = fd
        · rw [if_pos hmn] at h
          cases hb : advMinRemove (eraseConn st.connections fd) st.maxfd walkFuel
              st.minfd with
          | none => rw [hb] at h; simp at h
          | some n2 =>
            rw [hb] at h
            simp only at h
            obtain rfl := Option.some.inj h
            refine ⟨by simp [hu1], by simp [hu2], by simp [hu3],
              Or.inr ⟨hmx, by simp [hu4]⟩, Or.inl ⟨hmn, by simpa [hu4] using hb⟩⟩
        · rw [if_neg hmn] at h
          simp only at h
          obtain rfl := Option.some.inj h
          refine ⟨by simp [hu1], by simp [hu2], by simp [hu3],
            Or.inr ⟨hmx, by simp [hu4]⟩, Or.inr ⟨hmn, by simp [hu5]⟩⟩

theorem setConn_lookup_self : ∀ (l : List (Nat × Conn)) (fd : Nat) (c : Conn),
    lookupConn l fd = some c → setConn l fd c = l := by
  intro l
  induction l with
  | nil => intro fd c h; simp [lookupConn] at h
  | cons p rest ih =>
    intro fd c h
    obtain ⟨k, c0⟩ := p
    by_cases hk : k = fd
    · subst hk
      rw [lookupConn, if_pos rfl] at h
      obtain rfl := Option.some.inj h
      simp [setConn]
    · rw [lookupConn, if_neg hk] at h
      simp [setConn, hk, ih fd c h]

theorem removeFirstId_no_match (id : Int) :
    ∀ l : List Timeout, (∀ t ∈ l, t.id ≠ id) → removeFirstId id l = l := by
  intro l
  induction l with
  | nil => intro _; rfl
  | cons t rest ih =>
    intro h
    rw [removeFirstId, if_neg (h t (by simp))]
    rw [ih fun u hu => h u (by simp [hu])]

theorem mem_removeFirstId (id : Int) :
    ∀ (l : List Timeout) t, t ∈ removeFirstId id l → t ∈ l := by
  intro l
  induction l with
  | nil => intro t h; simp [removeFirstId] at h
  | cons t0 rest ih =>
    intro t h
    rw [removeFirstId] at h
    by_cases h0 : t0.id = id
    · rw [if_pos h0] at h; exact List.mem_cons_of_mem t0 h
    · rw [if_neg h0] at h
      rcases List.mem_cons.mp h with h1 | h1
      · exact h1 ▸ List.mem_cons_self t0 rest
      · exact List.mem_cons_of_mem t0 (ih t h1)

/-! Shared concrete states used to evaluate the claims. -/

/-- An empty kernel environment: every stream exhausted, defaults apply. -/
def env0 : Env := ⟨[], [], [], [], []⟩

/-- A callback set with only an eof callback (empty body). -/
def cbsEof : Callbacks := ⟨none, none, none, some [], none⟩

/-! Claim C1.  The spec says `iomux_update_timeouts` subtracts the elapsed
wall time from every remaining timer and then records the current wall
time.  The code records the current wall time, but the `memset` on `diff`
zeroes the computed delta before it is applied, so every timer's
`wait_time` is left unchanged. -/

/-- State for the C1 evaluation: one pending 5-second timer, previous
timeout check at t = 100 s, wall clock now reporting t = 101 s. -/
def muxC1 : W :=
  { iomux_create ⟨[⟨101, 0⟩], [], [], [], []⟩ with
      last_timeout_check := ⟨100, 0⟩
      timeouts := [⟨1, ⟨5, 0⟩, []⟩] }

/-- C1: with 1 second of wall time elapsed since the last check, the code
leaves the pending timer's `wait_time` at 5 s (instead of the 4 s the claim
requires) while still recording the new check time; the elapsed time the
claim says is subtracted is 1 s, not 0. -/
theorem c1_update_timeouts_subtracts_zero :
    (iomux_update_timeouts muxC1).timeouts = [⟨1, ⟨5, 0⟩, []⟩] ∧
    (iomux_update_timeouts muxC1).last_timeout_check = ⟨101, 0⟩ ∧
    timerSub ⟨101, 0⟩ ⟨100, 0⟩ = ⟨1, 0⟩ ∧
    timerSub ⟨5, 0⟩ (timerSub ⟨101, 0⟩ ⟨100, 0⟩) ≠ (⟨5, 0⟩ : TimeVal) := by
  decide

/-! Claim C3.  `iomux_unschedule` returns 0 only for id 0; for every nonzero
id — present in the list or never issued — it falls through to `return 1`. -/

/-- C3 counterexample: unscheduling the never-issued id 42 on a fresh
multiplexer returns 1, not the 0 the claim requires. -/
theorem c3_counterexample :
    iomux_unschedule (iomux_create env0) 42 = (iomux_create env0, 1) ∧
    (1 : Int) ≠ 0 := by
  decide

/-- C3 (amended): `unschedule(0)` returns 0 and changes nothing; for any
nonzero id the first matching timer (if any) is removed and the function
returns 1 regardless of whether such a timer existed — in particular the
state is returned unchanged together with result 1 when no timer matches,
and no timer other than the removed one is dropped. -/
theorem c3_unschedule_returns_one_for_any_nonzero_id (st : W) (id : Int) :
    (id = 0 → iomux_unschedule st id = (st, 0)) ∧
    (id ≠ 0 →
      (iomux_unschedule st id).2 = 1 ∧
      (iomux_unschedule st id).1 =
        { st with timeouts := removeFirstId id st.timeouts } ∧
      ((∀ t ∈ st.timeouts, t.id ≠ id) → (iomux_unschedule st id).1 = st) ∧
      (∀ t ∈ (iomux_unschedule st id).1.timeouts, t ∈ st.timeouts)) := by
  constructor
  · intro h; simp [iomux_unschedule, h]
  · intro h
    unfold iomux_unschedule
    rw [if_neg h]
    refine ⟨rfl, rfl, fun hno => ?_, fun t ht => ?_⟩
    · simp [removeFirstId_no_match id st.timeouts hno]
    · exact mem_removeFirstId id st.timeouts t ht

/-- C3 witness: the amended theorem applied to the fresh multiplexer and
id 7 (nonzero, never issued): result 1 and unchanged state. -/
theorem c3_witness :
    (iomux_unschedule (iomux_create env0) 7).2 = 1 ∧
    (iomux_unschedule (iomux_create env0) 7).1 = iomux_create env0 :=
  ⟨((c3_unschedule_returns_one_for_any_nonzero_id (iomux_create env0) 7).2
      (by decide)).1,
   ((c3_unschedule_returns_one_for_any_nonzero_id (iomux_create env0) 7).2
      (by decide)).2.2.1 (by decide)⟩

/-! Claim C4.  The first statement of `iomux_remove` dereferences
`connections[fd]->timeout_id`, so calling it on an empty slot is a
null-pointer dereference, not a guarded no-op. -/

/-- C4 counterexample: on a fresh multiplexer slot 5 is empty, and
`iomux_remove` on it is undefined behaviour (`none`) rather than a
completed operation leaving the state unchanged. -/
theorem c4_counterexample :
    lookupConn (iomux_create env0).connections 5 = none ∧
    iomux_remove (iomux_create env0) 5 = none := by
  decide

/-- C4 (amended): for every fd whose slot is empty, `iomux_remove`
dereferences the absent record and is undefined; the operation never
completes on an empty slot. -/
theorem c4_remove_on_empty_slot_is_undefined (st : W) (fd : Nat)
    (h : lookupConn st.connections fd = none) :
    iomux_remove st fd = none := by
  by_cases hfd : fd < connectionsMax
  · simp [iomux_remove, slotRead, hfd, h]
  · simp [iomux_remove, slotRead, hfd]

/-- C4 witness: the amended theorem applied to the empty slot 9 of a fresh
multiplexer. -/
theorem c4_witness : iomux_remove (iomux_create env0) 9 = none :=
  c4_remove_on_empty_slot_is_undefined (iomux_create env0) 9 (by decide)

/-! Claim C9.  `iomux_close` on an fd with no registered record returns at
once: no callback, no syscall, no state change. -/

/-- C9: closing an unregistered fd (within the registry bounds) returns the
state unchanged — registry, timer list, cursors, buffers, environment and
trace all identical — and hands back no callback commands. -/
theorem c9_close_unregistered_is_noop (st : W) (fd : Nat)
    (hfd : fd < connectionsMax)
    (h : lookupConn st.connections fd = none) :
    iomux_close st fd = some (st, []) := by
  simp [iomux_close, slotRead, hfd, h]

/-- C9 witness: closing the unregistered fd 11 on a fresh multiplexer. -/
theorem c9_witness :
    iomux_close (iomux_create env0) 11 = some (iomux_create env0, []) :=
  c9_close_unregistered_is_noop (iomux_create env0) 11 (by decide) (by decide)

/-! Claim C5.  `iomux_write` accepts `min(len, bufSize - outlen)` bytes. -/

/-- C5: for a registered fd whose buffer respects the capacity invariant,
`iomux_write` returns exactly `min(len, capacity - outlen)`, appends exactly
those bytes (and no others, leaving every other slot untouched), the new
`outlen` never exceeds the capacity, and once the buffer is full a further
write returns 0. -/
theorem c5_write_returns_min_len_free_space (st : W) (fd : Nat)
    (buf : List Nat) (conn : Conn)
    (hfd : fd < connectionsMax)
    (hc : lookupConn st.connections fd = some conn)
    (hcap : conn.outbuf.length ≤ bufSize) :
    ∃ st2,
      iomux_write st fd buf =
        some (st2, ((min buf.length (bufSize - conn.outbuf.length) : Nat) : Int)) ∧
      ∃ conn2, lookupConn st2.connections fd = some conn2 ∧
        conn2.outbuf =
          conn.outbuf ++ buf.take (min buf.length (bufSize - conn.outbuf.length)) ∧
        conn2.outbuf.length =
          conn.outbuf.length + min buf.length (bufSize - conn.outbuf.length) ∧
        conn2.outbuf.length ≤ bufSize ∧
        (∀ g, g ≠ fd → lookupConn st2.connections g = lookupConn st.connections g) ∧
        (conn2.outbuf.length = bufSize →
          ∀ buf2, (iomux_write st2 fd buf2).map Prod.snd = some 0) := by
  have hsr : slotRead st fd = some (some conn) := by simp [slotRead, hfd, hc]
  have hlen : (buf.take (min buf.length (bufSize - conn.outbuf.length))).length
      = min buf.length (bufSize - conn.outbuf.length) := by
    rw [List.length_take]; omega
  have hwlen :
      (if (buf.length : Int) > (bufSize : Int) - (conn.outbuf.length : Int) then
          (bufSize : Int) - (conn.outbuf.length : Int)
        else (buf.length : Int)) =
        ((min buf.length (bufSize - conn.outbuf.length) : Nat) : Int) := by
    split_ifs with h <;> omega
  have hfull0 : ∀ (st3 : W) (conn3 : Conn),
      lookupConn st3.connections fd = some conn3 →
      conn3.outbuf.length = bufSize →
      ∀ buf2, (iomux_write st3 fd buf2).map Prod.snd = some 0 := by
    intro st3 conn3 hc3 hfull buf2
    have hsr3 : slotRead st3 fd = some (some conn3) := by simp [slotRead, hfd, hc3]
    have hw2 : (if (buf2.length : Int) > (bufSize : Int) - (conn3.outbuf.length : Int)
        then (bufSize : Int) - (conn3.outbuf.length : Int)
        else (buf2.length : Int)) = 0 := by
      rw [hfull]; split_ifs <;> omega
    simp only [iomux_write, hsr3, hw2]
    simp
  by_cases hn : min buf.length (bufSize - conn.outbuf.length) = 0
  · -- the write accepts nothing; the state is returned unchanged
    refine ⟨st, ?_, conn, hc, ?_, by omega, hcap, fun g _ => rfl,
      fun hfull buf2 => hfull0 st conn hc hfull buf2⟩
    · simp only [iomux_write, hsr, hwlen, hn]
      simp
    · rw [hn]; simp
  · -- the write accepts min(len, free) > 0 bytes and appends them
    refine ⟨{ st with connections := setConn st.connections fd { conn with outbuf := conn.outbuf ++ buf.take (min buf.length (bufSize - conn.outbuf.length)) } },
      ?_, { conn with outbuf := conn.outbuf ++ buf.take (min buf.length (bufSize - conn.outbuf.length)) }, ?_, rfl, ?_, ?_, ?_, ?_⟩
    · have htn : ((min buf.length (bufSize - conn.outbuf.length) : Nat) : Int).toNat
          = min buf.length (bufSize - conn.outbuf.length) := by omega
      simp only [iomux_write, hsr, hwlen, htn]
      rw [if_pos (by exact_mod_cast hn)]
    · rw [lookup_setConn, if_pos rfl]
    · simp [hlen]
    · simp [hlen]; omega
    · intro g hg
      rw [lookup_setConn, if_neg hg]
    · intro hfull buf2
      refine hfull0 _ _ ?_ hfull buf2
      rw [lookup_setConn, if_pos rfl]

/-- C5 witness: a concrete 3-byte write into an empty buffer on fd 0. -/
theorem c5_witness :
    ∃ st2,
      iomux_write
        { iomux_create env0 with connections := [(0, ⟨0, cbsEof, [], 0, 0⟩)] }
        0 [1, 2, 3] = some (st2, ((min 3 (bufSize - 0) : Nat) : Int)) ∧
      ∃ conn2,
        lookupConn st2.connections 0 = some conn2 ∧
        conn2.outbuf = [] ++ [1, 2, 3].take (min 3 (bufSize - 0)) ∧
        conn2.outbuf.length = 0 + min 3 (bufSize - 0) ∧
        conn2.outbuf.length ≤ bufSize ∧
        (∀ g, g ≠ 0 → lookupConn st2.connections g =
          lookupConn
            { iomux_create env0 with
                connections := [(0, ⟨0, cbsEof, [], 0, 0⟩)] }.connections g) ∧
        (conn2.outbuf.length = bufSize →
          ∀ buf2, (iomux_write st2 0 buf2).map Prod.snd = some 0) := by
  have h := c5_write_returns_min_len_free_space
    { iomux_create env0 with connections := [(0, ⟨0, cbsEof, [], 0, 0⟩)] }
    0 [1, 2, 3] ⟨0, cbsEof, [], 0, 0⟩ (by decide) (by decide) (by decide)
  simpa using h

/-! Claim C7.  `last_timeout_id` is a 32-bit `int`, incremented with no
skip-zero logic, so the ids are strictly increasing only until the counter
wraps at the 2^31-st schedule. -/

/-- One successful `iomux_schedule` call (1-second timeout, trivial
callback), keeping only the state. -/
def schedStep (st : W) : W := (iomux_schedule st (some ⟨1, 0⟩) (some [])).1

/-- The id returned by the (n+1)-st successful schedule on a fresh
multiplexer. -/
def retId (n : Nat) : Int :=
  (iomux_schedule (schedStep^[n] (iomux_create env0)) (some ⟨1, 0⟩) (some [])).2

theorem schedule_id_step (st : W) (tv : TimeVal) (cb : List Cmd) :
    (iomux_schedule st (some tv) (some cb)).1.last_timeout_id =
      incWrap st.last_timeout_id ∧
    (iomux_schedule st (some tv) (some cb)).2 = incWrap st.last_timeout_id := by
  unfold iomux_schedule
  split_ifs <;> simp

theorem iterate_last_timeout_id :
    ∀ n : Nat, n ≤ 2147483647 →
      (schedStep^[n] (iomux_create env0)).last_timeout_id = n := by
  intro n
  induction n with
  | zero => intro _; rfl
  | succ k ih =>
    intro h
    rw [Function.iterate_succ_apply']
    have hk := ih (by omega)
    have hs : (schedStep (schedStep^[k] (iomux_create env0))).last_timeout_id =
        incWrap (schedStep^[k] (iomux_create env0)).last_timeout_id :=
      (schedule_id_step _ ⟨1, 0⟩ []).1
    rw [hs, hk, incWrap, if_neg (by unfold intMax; omega)]
    push_cast
    ring

theorem retId_eq (n : Nat) (h : n ≤ 2147483646) : retId n = n + 1 := by
  unfold retId
  rw [(schedule_id_step _ ⟨1, 0⟩ []).2, iterate_last_timeout_id n (by omega),
    incWrap, if_neg (by unfold intMax; omega)]

/-- C7 counterexample: the id returned by the 2147483648-th schedule on a
single multiplexer is INT_MIN, strictly smaller than the id 2147483647
returned by the schedule before it — the 32-bit counter has wrapped. -/
theorem c7_counterexample : retId 2147483647 < retId 2147483646 := by
  have h1 : retId 2147483646 = 2147483647 := retId_eq 2147483646 (by omega)
  have h2 : retId 2147483647 = -2147483648 := by
    unfold retId
    rw [(schedule_id_step _ ⟨1, 0⟩ []).2,
      iterate_last_timeout_id 2147483647 (by omega)]
    simp [incWrap, intMax]
  rw [h1, h2]
  omega

/-- C7 (amended): as long as fewer than 2^31 ids have been issued, every id
returned by a successful schedule is nonzero, positive, and strictly
greater than every earlier one (hence distinct across the multiplexer's
lifetime so far); the guarantee fails at the 2^31-st schedule, where the
32-bit counter wraps to a negative value. -/
theorem c7_ids_strictly_increase_before_wrap (m n : Nat)
    (hmn : m < n) (hn : n ≤ 2147483646) :
    retId m < retId n ∧ retId n ≠ 0 ∧ 0 < retId n := by
  have h1 := retId_eq m (by omega)
  have h2 := retId_eq n hn
  rw [h1, h2]
  refine ⟨by omega, by omega, by omega⟩

/-- C7 witness: the amended theorem applied to the first two schedules. -/
theorem c7_witness : retId 0 < retId 1 ∧ retId 1 ≠ 0 ∧ 0 < retId 1 :=
  c7_ids_strictly_increase_before_wrap 0 1 (by decide) (by decide)

/-! Claim C2.  `iomux_close` drains the buffer and saves the `mux_eof`
pointer, but then calls `iomux_remove` BEFORE invoking it, so the record is
already deregistered and freed at the moment `on_eof` runs. -/

/-- Two-connection state for the C2 evaluation: fds 0 and 1 registered,
both with an eof callback and an empty output buffer. -/
def muxPair : W :=
  { iomux_create env0 with
      connections := [(0, ⟨0, cbsEof, [], 0, 0⟩), (1, ⟨0, cbsEof, [], 0, 0⟩)]
      maxfd := 1
      minfd := 0 }

/-- C2 counterexample: closing the registered fd 0 invokes the eof callback
with the record already deregistered — the trace records `evEof 0 false`,
not the `evEof 0 true` the claim requires (the record still registered at
the moment `on_eof` runs). -/
theorem c2_counterexample :
    (lookupConn muxPair.connections 0).isSome = true ∧
    (iomux_close muxPair 0).map (fun p => p.1.trace) =
      some [Event.evEof 0 false] ∧
    Event.evEof 0 false ≠ Event.evEof 0 true := by
  decide

/-- C2 (amended): for a registered fd with an eof callback, when `close`
completes it has first drained the output buffer, then deregistered and
freed the record, and only after that invoked `on_eof`: at that moment the
record is no longer registered (`evEof fd false`), the slot is empty in the
resulting state, and the commands handed back are the saved eof callback's
body. -/
theorem c2_close_removes_before_eof (st : W) (fd : Nat) (conn : Conn)
    (st2 : W) (cmds : List Cmd)
    (hnd : (st.connections.map Prod.fst).Nodup)
    (hfd : fd < connectionsMax)
    (hc : lookupConn st.connections fd = some conn)
    (heof : conn.cbs.mux_eof.isSome)
    (h : iomux_close st fd = some (st2, cmds)) :
    lookupConn st2.connections fd = none ∧
    st2.trace = st.trace ++ [Event.evEof fd false] ∧
    cmds = conn.cbs.mux_eof.getD [] := by
  have hsr : slotRead st fd = some (some conn) := by simp [slotRead, hfd, hc]
  unfold iomux_close at h
  rw [hsr] at h
  simp only at h
  generalize hD : (if conn.outbuf.length ≠ 0 then
      drainLoop (conn.outbuf.length + 8) 0 conn st.env
    else (conn, st.env)) = D at h
  have hcbs : D.1.cbs = conn.cbs := by
    rw [← hD]
    split_ifs
    · exact drainLoop_cbs _ _ _ _
    · rfl
  cases hr : iomux_remove
      { st with connections := setConn st.connections fd D.1, env := D.2 } fd with
  | none => rw [hr] at h; simp at h
  | some st3 =>
    rw [hr] at h
    simp only at h
    rw [hcbs] at h
    obtain ⟨ecmds, he⟩ := Option.isSome_iff_exists.mp heof
    rw [he] at h
    simp only [Option.some.injEq, Prod.mk.injEq] at h
    obtain ⟨h1, h2⟩ := h
    obtain ⟨hcon, htr, _henv, _hmax, _hmin⟩ := iomux_remove_spec _ fd st3 hr
    have hlook : lookupConn st3.connections fd = none := by
      rw [hcon]
      exact lookup_eraseConn_self _ fd (by simpa using nodup_keys_setConn _ fd D.1 hnd)
    refine ⟨?_, ?_, ?_⟩
    · rw [← h1]; simpa using hlook
    · rw [← h1]
      simp [hlook, htr]
    · rw [← h2, he]
      rfl

/-- The state after closing fd 0 of `muxPair`: only fd 1 remains, the
cursors have been rewound, and the trace records the eof callback firing on
the already-deregistered fd. -/
def muxPairClosed : W :=
  { iomux_create env0 with
      connections := [(1, ⟨0, cbsEof, [], 0, 0⟩)]
      maxfd := 1
      minfd := 1
      trace := [Event.evEof 0 false] }

/-- C2 witness: the amended theorem applied to the concrete close of fd 0 on
the two-connection state. -/
theorem c2_witness :
    lookupConn muxPairClosed.connections 0 = none ∧
    muxPairClosed.trace = muxPair.trace ++ [Event.evEof 0 false] ∧
    ([] : List Cmd) = cbsEof.mux_eof.getD [] :=
  c2_close_removes_before_eof muxPair 0 ⟨0, cbsEof, [], 0, 0⟩ muxPairClosed []
    (by decide) (by decide) (by decide) (by decide) (by decide)

/-! Claim C6.  `calloc` starts both cursors at 0, not at the −1/+∞ markers
the claim requires for an empty registry; while the registry is non-empty
the bracketing invariant does hold and is preserved by `add` and by every
`remove` that completes (removing the last connection never completes: the
`minfd` rewind walks past the end of the registry array). -/

/-- Cursor invariant: every occupied slot lies between the cursors. -/
def cursorInv (st : W) : Prop :=
  ∀ fd, (lookupConn st.connections fd).isSome = true →
    st.minfd ≤ fd ∧ (fd : Int) ≤ st.maxfd

/-- C6 counterexample: immediately after `iomux_create` — a public operation
— the registry is empty, yet both cursors are 0: `maxfd` is not the −1
marker the claim requires for an empty registry. -/
theorem c6_counterexample :
    (iomux_create env0).connections = [] ∧
    (iomux_create env0).maxfd = 0 ∧ (iomux_create env0).minfd = 0 ∧
    (iomux_create env0).maxfd ≠ -1 := by
  decide

/-- C6 (amended): `create` yields an empty registry with both cursors 0
(not −1/+∞); whenever the registry is non-empty, `maxfd ≥ minfd` under the
cursor invariant; and the cursor invariant — every occupied slot lies in
`[minfd, maxfd]` — is preserved by `add` and by every completed `remove`. -/
theorem c6_cursors_bracket_occupied_slots :
    (∀ env, (iomux_create env).connections = [] ∧ (iomux_create env).minfd = 0 ∧
      (iomux_create env).maxfd = 0) ∧
    (∀ st : W, cursorInv st → (∃ fd, (lookupConn st.connections fd).isSome = true) →
      (st.minfd : Int) ≤ st.maxfd) ∧
    (∀ (st : W) (fd : Nat) (cbs : Callbacks) (st2 : W) (b : Bool),
      cursorInv st → iomux_add st fd cbs = some (st2, b) → cursorInv st2) ∧
    (∀ (st : W) (fd : Nat) (st2 : W),
      (st.connections.map Prod.fst).Nodup →
      cursorInv st → iomux_remove st fd = some st2 → cursorInv st2) := by
  refine ⟨fun env => ⟨rfl, rfl, rfl⟩, ?_, ?_, ?_⟩
  · rintro st hinv ⟨fd, hfd⟩
    obtain ⟨h1, h2⟩ := hinv fd hfd
    omega
  · intro st fd cbs st2 b hinv h
    unfold iomux_add at h
    by_cases h1 : fd ≥ connectionsMax
    · rw [if_pos h1] at h
      simp only [Option.some.injEq, Prod.mk.injEq] at h
      obtain ⟨h3, _⟩ := h
      intro g hg
      rw [← h3] at hg ⊢
      exact hinv g hg
    · rw [if_neg h1] at h
      by_cases h2 : (lookupConn st.connections fd).isSome = true
      · rw [if_pos h2] at h
        simp only [Option.some.injEq, Prod.mk.injEq] at h
        obtain ⟨h3, _⟩ := h
        intro g hg
        rw [← h3] at hg ⊢
        exact hinv g hg
      · rw [if_neg h2] at h
        simp only at h
        cases ha : advMinAdd
            (setConn st.connections fd ⟨0, cbs, [], 0, 0⟩)
            (if (fd : Int) > st.maxfd then (fd : Int) else st.maxfd) walkFuel
            (if fd < st.minfd then fd else st.minfd) with
        | none => rw [ha] at h; simp at h
        | some m2 =>
          rw [ha] at h
          simp only [Option.some.injEq, Prod.mk.injEq] at h
          obtain ⟨h3, _⟩ := h
          obtain ⟨hge, hskip⟩ := advMinAdd_some _ _ walkFuel _ _ ha
          intro g hg
          rw [← h3] at hg ⊢
          simp only at hg ⊢
          rw [lookup_setConn] at hg
          have hup : (g : Int) ≤ (if (fd : Int) > st.maxfd then (fd : Int) else st.maxfd) := by
            by_cases hgf : g = fd
            · subst hgf; split_ifs <;> omega
            · rw [if_neg hgf] at hg
              have := (hinv g hg).2
              split_ifs <;> omega
          have hlo1 : (if fd < st.minfd then fd else st.minfd) ≤ g := by
            by_cases hgf : g = fd
            · subst hgf; split_ifs <;> omega
            · rw [if_neg hgf] at hg
              have := (hinv g hg).1
              split_ifs <;> omega
          have hlo : m2 ≤ g := by
            by_contra hcon
            have hnone := hskip g hlo1 (by omega)
            rw [lookup_setConn] at hnone
            by_cases hgf : g = fd
            · rw [if_pos hgf] at hnone; cases hnone
            · rw [if_neg hgf] at hnone
              rw [if_neg hgf, hnone] at hg
              cases hg
          exact ⟨hlo, hup⟩
  · intro st fd st2 hnd hinv hr
    obtain ⟨hcon, _htr, _henv, hmax, hmin⟩ := iomux_remove_spec st fd st2 hr
    intro g hg
    rw [hcon] at hg
    by_cases hgf : g = fd
    · subst hgf
      rw [lookup_eraseConn_self _ _ hnd] at hg
      cases hg
    · rw [lookup_eraseConn_ne _ _ _ hgf] at hg
      obtain ⟨hlo, hhi⟩ := hinv g hg
      constructor
      · rcases hmin with ⟨hfd2, hwalk⟩ | ⟨_, heq⟩
        · obtain ⟨_, hskip⟩ := advMinRemove_some _ _ walkFuel _ _ hwalk
          by_contra hcon2
          have hnone := hskip g (by omega) (by omega)
          rw [lookup_eraseConn_ne _ _ _ hgf] at hnone
          rw [hnone] at hg
          simp at hg
        · omega
      · rcases hmax with ⟨hfd2, hwalk⟩ | ⟨_, heq⟩
        · obtain ⟨_, hskip⟩ := advMax_some _ walkFuel _ _ hwalk
          by_contra hcon2
          have hnone := hskip (g : Int) (by omega) (by omega) (by omega)
          rw [Int.toNat_natCast, lookup_eraseConn_ne _ _ _ hgf] at hnone
          rw [hnone] at hg
          simp at hg
        · omega

/-- State after adding fd 2 to a fresh multiplexer: both cursors point at
the single occupied slot. -/
def muxAfterAdd : W :=
  { iomux_create env0 with
      connections := [(2, ⟨0, cbsEof, [], 0, 0⟩)]
      maxfd := 2
      minfd := 2 }

/-- C6 witness: the amended theorem's `add` clause applied to the concrete
add of fd 2 on a fresh multiplexer. -/
theorem c6_witness : cursorInv muxAfterAdd :=
  (c6_cursors_bracket_occupied_slots).2.2.1 (iomux_create env0) 2 cbsEof
    muxAfterAdd true
    (fun g hg => by simp [iomux_create, lookupConn] at hg)
    (by decide)

/-! Claim C8.  The dispatch loop re-checks the registry slot before the
write phase of each fd (`if (!iomux->connections[fd]) continue;`) and before
processing each fd at all, so once a callback has closed or removed an fd
no further event processing happens for it in the same iteration. -/

/-- Callback set for the C8 scenario: the input callback closes its own
fd 0, and an output callback is installed so that any (wrong) write-phase
processing would be observable as an `evOutput 0` trace event. -/
def cbsC8 : Callbacks := ⟨some [Cmd.cClose 0], some [], none, some [], none⟩

/-- C8 scenario state: fd 0 is reported both readable and writable in the
same iteration, its input callback closes it; fd 1 is registered but idle
(so the close of fd 0 completes). -/
def muxC8 : W :=
  { iomux_create ⟨[], [ReadOutcome.rok [65]], [], [SelectOutcome.ready [0] [0]], []⟩ with
      connections := [(0, ⟨0, cbsC8, [], 0, 0⟩), (1, ⟨0, cbsEof, [], 0, 0⟩)]
      maxfd := 1
      minfd := 0 }

/-- C8: (i) an fd whose record is gone when the loop reaches it is skipped
entirely; (ii) an fd whose record is gone after its read phase is skipped in
the write phase; (iii) in the concrete scenario where fd 0 is both readable
and writable and its `on_input` closes it, the iteration's trace is exactly
the input event followed by the eof event — in particular no `evOutput 0`
write-phase event for the closed fd. -/
theorem c8_closed_fd_skipped_in_same_iteration :
    (∀ (st : W) (fd : Nat) (effR effW : List Nat), fd < connectionsMax →
      lookupConn st.connections fd = none →
      stepTask st (.tHandleFd fd effR effW) = some (st, [])) ∧
    (∀ (st : W) (fd : Nat) (effW : List Nat), fd < connectionsMax →
      lookupConn st.connections fd = none →
      stepTask st (.tWritePhase fd effW) = some (st, [])) ∧
    ((iomux_run muxC8 (some ⟨1, 0⟩)).map (fun s => s.trace) =
      some [Event.evInput 0 1, Event.evEof 0 false] ∧
     (iomux_run muxC8 (some ⟨1, 0⟩)).map
        (fun s => s.trace.contains (Event.evOutput 0)) = some false) := by
  refine ⟨?_, ?_, by decide, by decide⟩
  · intro st fd effR effW hfd h
    simp [stepTask, slotRead, hfd, h]
  · intro st fd effW hfd h
    simp [stepTask, slotRead, hfd, h]

/-- C8 witness: the write-phase guard applied to the concrete empty slot 3
of a fresh multiplexer. -/
theorem c8_witness :
    stepTask (iomux_create env0) (.tWritePhase 3 []) =
      some (iomux_create env0, []) :=
  (c8_closed_fd_skipped_in_same_iteration).2.1 (iomux_create env0) 3 []
    (by decide) (by decide)

/-! Claim C10.  `iomux_loop` runs `while (!leave)` and executes
`iomux->leave = 0` before returning, so `end_loop` only terminates the
current invocation and a subsequent `iomux_loop` call iterates again. -/

/-- C10: whenever `iomux_loop` returns, the returned state has `leave = 0`;
and on a state with `leave = 0` the loop performs an iteration rather than
returning immediately. -/
theorem c10_loop_resets_leave_flag :
    (∀ (t : Int) (fuel : Nat) (st st2 : W),
      iomux_loop t fuel st = some st2 → st2.leave = 0) ∧
    (∀ (t : Int) (fuel : Nat) (st st2 : W), st.leave = 0 →
      loopIteration st t = some st2 →
      iomux_loop t (fuel + 1) st = iomux_loop t fuel st2) := by
  constructor
  · intro t fuel
    induction fuel with
    | zero =>
      intro st st2 h
      unfold iomux_loop at h
      split_ifs at h with h1
      rw [← Option.some.inj h]
    | succ f ih =>
      intro st st2 h
      unfold iomux_loop at h
      split_ifs at h with h1
      · rw [← Option.some.inj h]
      · cases hi : loopIteration st t with
        | none => rw [hi] at h; simp at h
        | some st3 => rw [hi] at h; exact ih st3 st2 h
  · intro t fuel st st2 h1 h2
    conv_lhs => rw [iomux_loop]
    rw [if_neg (by omega), h2]

/-- A fresh multiplexer whose `leave` flag has been raised by
`iomux_end_loop`. -/
def muxLeave : W := iomux_end_loop (iomux_create env0)

/-- C10 witness: the theorem applied to concrete runs — a loop entered with
the flag raised returns with it cleared, and a loop over the state it
returned performs an iteration instead of returning immediately. -/
theorem c10_witness :
    (iomux_loop 0 5 muxLeave).map (fun s => s.leave) = some 0 ∧
    iomux_loop 0 2 (iomux_create env0) = iomux_loop 0 1 (iomux_create env0) := by
  constructor
  · have h : iomux_loop 0 5 muxLeave = some (iomux_create env0) := by decide
    have h0 := (c10_loop_resets_leave_flag).1 0 5 muxLeave (iomux_create env0) h
    rw [h]
    simp [h0]
  · exact (c10_loop_resets_leave_flag).2 0 1 (iomux_create env0) (iomux_create env0)
      (by decide) (by decide)

end Iomux
